import Mathlib

/-!
# Verification of the darkroom-simulator color engine

Shallow embedding of `src/utils/colorLogic.ts`: the delta calculator
(`calculateDelta`), the display formatter (`formatValue`), the clamp helper
(`clamp`) and the per-pixel transform loop (`processImageBuffer`).

JavaScript numbers are modelled as rationals (`ℚ`); pixel buffers
(`Uint8ClampedArray`) are modelled as lists of naturals whose well-formed
elements lie in `[0, 255]`.  Storing a number into a `Uint8ClampedArray`
element follows the ECMAScript `ToUint8Clamp` conversion: clamp to `[0, 255]`
and round to the nearest integer, ties to even (`roundHalfEven`).
The in-place mutation of the destination buffer is modelled by explicit state
passing on `EngineState`, a pair of the source and destination buffers: each
JavaScript assignment `destination[j] = v` becomes a `List.set` on the
`destination` component.
-/

/-- The `CMYValues` interface from `src/types.ts`: three filtration channels. -/
structure CMYValues where
  c : ℚ
  m : ℚ
  y : ℚ
  deriving DecidableEq

/-- `calculateDelta` from `src/utils/colorLogic.ts`:
difference between target and initial filter settings. -/
def calculateDelta (initial target : CMYValues) : CMYValues :=
  { c := target.c - initial.c
    m := target.m - initial.m
    y := target.y - initial.y }

/-- JavaScript `Math.round`: round to nearest integer, halves toward `+∞`. -/
def jsRound (x : ℚ) : ℤ := ⌊x + 1/2⌋

/-- `formatValue` from `src/utils/colorLogic.ts`: `Math.round(val * 10) / 10`. -/
def formatValue (val : ℚ) : ℚ := (jsRound (val * 10) : ℚ) / 10

/-- `clamp` from `src/utils/colorLogic.ts`: `Math.max(0, Math.min(255, val))`. -/
def clamp (val : ℚ) : ℚ := max 0 (min 255 val)

/-- Round to the nearest integer, ties to the even integer
(the rounding used by ECMAScript `ToUint8Clamp`). -/
def roundHalfEven (y : ℚ) : ℤ :=
  if (⌊y⌋ : ℚ) + 1/2 < y then ⌊y⌋ + 1
  else if y < (⌊y⌋ : ℚ) + 1/2 then ⌊y⌋
  else if ⌊y⌋ % 2 = 0 then ⌊y⌋ else ⌊y⌋ + 1

/-- ECMAScript `ToUint8Clamp`: the conversion applied to every number stored
into a `Uint8ClampedArray` element. -/
def toUint8Clamped (x : ℚ) : ℕ := (roundHalfEven (max 0 (min 255 x))).toNat

/-- `STRENGTH` constant of `processImageBuffer`: 1 filter unit → 1.8 RGB levels. -/
def STRENGTH : ℚ := 1.8

/-- `XTALK` constant of `processImageBuffer`: crosstalk suppression fraction. -/
def XTALK : ℚ := 0.15

/-- The `newR` expression of the loop body:
`r + gainR - (gainG * XTALK) - (gainB * XTALK)`. -/
def newR (r gainR gainG gainB : ℚ) : ℚ := r + gainR - gainG * XTALK - gainB * XTALK

/-- The `newG` expression of the loop body:
`g + gainG - (gainR * XTALK) - (gainB * XTALK)`. -/
def newG (g gainR gainG gainB : ℚ) : ℚ := g + gainG - gainR * XTALK - gainB * XTALK

/-- The `newB` expression of the loop body:
`b + gainB - (gainR * XTALK) - (gainG * XTALK)`. -/
def newB (b gainR gainG gainB : ℚ) : ℚ := b + gainB - gainR * XTALK - gainG * XTALK

/-- The two buffers `processImageBuffer` touches: it reads `source` and
mutates `destination` in place; the mutation is modelled by state passing. -/
structure EngineState where
  source : List ℕ
  destination : List ℕ
  deriving DecidableEq

/-- Reading `source[j]` as a JavaScript number (in-bounds reads of a
`Uint8ClampedArray` yield the stored sample). -/
def srcSample (st : EngineState) (j : ℕ) : ℚ := (st.source.getD j 0 : ℕ)

/-- One iteration of the `for` loop of `processImageBuffer` at pixel offset
`i`: read `r`, `g`, `b`, compute the matrix mixing, and perform the four
assignments `destination[i..i+3] = ...` (each through `ToUint8Clamp`). -/
def pixelStep (gainR gainG gainB : ℚ) (i : ℕ) (st : EngineState) : EngineState :=
  let r := srcSample st i
  let g := srcSample st (i+1)
  let b := srcSample st (i+2)
  { st with destination :=
      ((((st.destination.set i (toUint8Clamped (clamp (newR r gainR gainG gainB)))).set
          (i+1) (toUint8Clamped (clamp (newG g gainR gainG gainB)))).set
          (i+2) (toUint8Clamped (clamp (newB b gainR gainG gainB)))).set
          (i+3) (toUint8Clamped (srcSample st (i+3)))) }

/-- The `for (let i = 0; i < source.length; i += 4)` loop, by structural
recursion on a fuel bounding the number of remaining iterations (the number
of iterations from counter `i` is at most `source.length`, the fuel supplied
by `processImageBuffer`, so the fuel never runs out). -/
def processLoop (gainR gainG gainB : ℚ) : ℕ → ℕ → EngineState → EngineState
  | 0, _, st => st
  | fuel+1, i, st =>
    if i < st.source.length then
      processLoop gainR gainG gainB fuel (i+4) (pixelStep gainR gainG gainB i st)
    else st

/-- `processImageBuffer` from `src/utils/colorLogic.ts`: compute the three
gains from the filter delta and run the per-pixel loop. -/
def processImageBuffer (st : EngineState) (delta : CMYValues) : EngineState :=
  let gainB := delta.y * STRENGTH
  let gainG := delta.m * STRENGTH
  let gainR := delta.c * STRENGTH
  processLoop gainR gainG gainB st.source.length 0 st

/-! ## Rounding and store lemmas -/

theorem roundHalfEven_intCast (n : ℤ) : roundHalfEven (n : ℚ) = n := by
  unfold roundHalfEven
  rw [Int.floor_intCast]
  rw [if_neg (by linarith), if_pos (by linarith)]

theorem abs_roundHalfEven_sub_le (y : ℚ) : |(roundHalfEven y : ℚ) - y| ≤ 1/2 := by
  have h1 := Int.floor_le y
  have h2 := Int.lt_floor_add_one y
  unfold roundHalfEven
  split_ifs with ha hb hc <;> rw [abs_le] <;> constructor <;> push_cast <;> linarith

theorem roundHalfEven_nonneg (y : ℚ) (h : 0 ≤ y) : 0 ≤ roundHalfEven y := by
  have hb := abs_roundHalfEven_sub_le y
  rw [abs_le] at hb
  by_contra hneg
  push_neg at hneg
  have hle : roundHalfEven y ≤ -1 := by omega
  have : ((roundHalfEven y : ℤ) : ℚ) ≤ -1 := by exact_mod_cast hle
  linarith [hb.1]

theorem roundHalfEven_le (y : ℚ) (n : ℤ) (h : y ≤ (n : ℚ)) : roundHalfEven y ≤ n := by
  have hb := abs_roundHalfEven_sub_le y
  rw [abs_le] at hb
  by_contra hgt
  push_neg at hgt
  have hge : n + 1 ≤ roundHalfEven y := by omega
  have : ((n : ℤ) : ℚ) + 1 ≤ ((roundHalfEven y : ℤ) : ℚ) := by exact_mod_cast hge
  linarith [hb.2]

theorem toUint8Clamped_le (x : ℚ) : toUint8Clamped x ≤ 255 := by
  unfold toUint8Clamped
  have hy : max 0 (min 255 x) ≤ ((255 : ℤ) : ℚ) := by
    push_cast
    exact max_le (by norm_num) (min_le_left _ _)
  have := roundHalfEven_le _ _ hy
  omega

theorem toUint8Clamped_natCast (n : ℕ) (h : n ≤ 255) : toUint8Clamped (n : ℚ) = n := by
  unfold toUint8Clamped
  have hcl : max 0 (min 255 (n : ℚ)) = (n : ℚ) := by
    rw [min_eq_right (by exact_mod_cast h), max_eq_right (by positivity)]
  rw [hcl]
  have : roundHalfEven ((n : ℤ) : ℚ) = (n : ℤ) := roundHalfEven_intCast _
  rw [show ((n : ℕ) : ℚ) = ((n : ℤ) : ℚ) by push_cast; ring, this]
  omega

theorem toUint8Clamped_cast_of_mem (x : ℚ) (h0 : 0 ≤ x) (h255 : x ≤ 255) :
    ((toUint8Clamped x : ℕ) : ℚ) = (roundHalfEven x : ℚ) := by
  unfold toUint8Clamped
  rw [min_eq_right h255, max_eq_right h0]
  have hnn : 0 ≤ roundHalfEven x := roundHalfEven_nonneg x h0
  rw [show ((roundHalfEven x).toNat : ℚ) = (((roundHalfEven x).toNat : ℤ) : ℚ) by push_cast; ring]
  rw [Int.toNat_of_nonneg hnn]

theorem abs_toUint8Clamped_sub_le (x : ℚ) (h0 : 0 ≤ x) (h255 : x ≤ 255) :
    |((toUint8Clamped x : ℕ) : ℚ) - x| ≤ 1/2 := by
  rw [toUint8Clamped_cast_of_mem x h0 h255]
  exact abs_roundHalfEven_sub_le x

theorem clamp_mem (x : ℚ) : 0 ≤ clamp x ∧ clamp x ≤ 255 := by
  unfold clamp
  exact ⟨le_max_left _ _, max_le (by norm_num) (min_le_left _ _)⟩

theorem clamp_of_mem (x : ℚ) (h0 : 0 ≤ x) (h255 : x ≤ 255) : clamp x = x := by
  unfold clamp
  rw [min_eq_right h255, max_eq_right h0]

/-! ## Loop structure lemmas -/

theorem pixelStep_source (gainR gainG gainB : ℚ) (i : ℕ) (st : EngineState) :
    (pixelStep gainR gainG gainB i st).source = st.source := by
  simp [pixelStep]

theorem pixelStep_destLength (gainR gainG gainB : ℚ) (i : ℕ) (st : EngineState) :
    (pixelStep gainR gainG gainB i st).destination.length = st.destination.length := by
  simp [pixelStep]

theorem srcSample_pixelStep (gainR gainG gainB : ℚ) (i j : ℕ) (st : EngineState) :
    srcSample (pixelStep gainR gainG gainB i st) j = srcSample st j := by
  simp [srcSample, pixelStep]

theorem processLoop_source (gainR gainG gainB : ℚ) (fuel i : ℕ) (st : EngineState) :
    (processLoop gainR gainG gainB fuel i st).source = st.source := by
  induction fuel generalizing i st with
  | zero => rfl
  | succ fuel ih =>
    unfold processLoop
    split
    · rw [ih, pixelStep_source]
    · rfl

theorem processLoop_destLength (gainR gainG gainB : ℚ) (fuel i : ℕ) (st : EngineState) :
    (processLoop gainR gainG gainB fuel i st).destination.length =
      st.destination.length := by
  induction fuel generalizing i st with
  | zero => rfl
  | succ fuel ih =>
    unfold processLoop
    split
    · rw [ih, pixelStep_destLength]
    · rfl

theorem processLoop_getElem_lt (gainR gainG gainB : ℚ) (fuel i j : ℕ) (st : EngineState)
    (hj : j < i) :
    (processLoop gainR gainG gainB fuel i st).destination[j]? =
      st.destination[j]? := by
  induction fuel generalizing i st with
  | zero => rfl
  | succ fuel ih =>
    unfold processLoop
    split
    · rw [ih (i+4) (pixelStep gainR gainG gainB i st) (by omega)]
      simp only [pixelStep]
      rw [List.getElem?_set_ne (by omega), List.getElem?_set_ne (by omega),
        List.getElem?_set_ne (by omega), List.getElem?_set_ne (by omega)]
    · rfl

theorem pixelStep_dest_getElem (gainR gainG gainB : ℚ) (i : ℕ) (st : EngineState)
    (h : i + 3 < st.destination.length) :
    (pixelStep gainR gainG gainB i st).destination[i]? =
        some (toUint8Clamped (clamp (newR (srcSample st i) gainR gainG gainB))) ∧
    (pixelStep gainR gainG gainB i st).destination[i+1]? =
        some (toUint8Clamped (clamp (newG (srcSample st (i+1)) gainR gainG gainB))) ∧
    (pixelStep gainR gainG gainB i st).destination[i+2]? =
        some (toUint8Clamped (clamp (newB (srcSample st (i+2)) gainR gainG gainB))) ∧
    (pixelStep gainR gainG gainB i st).destination[i+3]? =
        some (toUint8Clamped (srcSample st (i+3))) := by
  have h0 : i < st.destination.length := by omega
  have h1 : i + 1 < st.destination.length := by omega
  have h2 : i + 2 < st.destination.length := by omega
  refine ⟨?_, ?_, ?_, ?_⟩ <;>
    simp [pixelStep, List.getElem?_set_ne, List.getElem?_set_self, List.length_set,
      h0, h1, h2, h]

theorem processLoop_pixel (gainR gainG gainB : ℚ) (fuel i k : ℕ) (st : EngineState)
    (hfuel : st.source.length ≤ i + 4 * fuel)
    (hi : i % 4 = 0) (hik : i ≤ k) (hk : k % 4 = 0)
    (hdlen : st.destination.length = st.source.length)
    (hklen : k + 3 < st.source.length) :
    (processLoop gainR gainG gainB fuel i st).destination[k]? =
        some (toUint8Clamped (clamp (newR (srcSample st k) gainR gainG gainB))) ∧
    (processLoop gainR gainG gainB fuel i st).destination[k+1]? =
        some (toUint8Clamped (clamp (newG (srcSample st (k+1)) gainR gainG gainB))) ∧
    (processLoop gainR gainG gainB fuel i st).destination[k+2]? =
        some (toUint8Clamped (clamp (newB (srcSample st (k+2)) gainR gainG gainB))) ∧
    (processLoop gainR gainG gainB fuel i st).destination[k+3]? =
        some (toUint8Clamped (srcSample st (k+3))) := by
  induction fuel generalizing i st with
  | zero => exact absurd hklen (by omega)
  | succ fuel ih =>
    unfold processLoop
    by_cases hlt : i < st.source.length
    · rw [if_pos hlt]
      have hsrc2 : (pixelStep gainR gainG gainB i st).source = st.source :=
        pixelStep_source _ _ _ _ _
      by_cases hcase : i + 4 ≤ k
      · have H := ih (i+4) (pixelStep gainR gainG gainB i st)
          (by rw [hsrc2]; omega) (by omega) hcase
          (by rw [pixelStep_destLength, hsrc2]; exact hdlen)
          (by rw [hsrc2]; exact hklen)
        simpa only [srcSample_pixelStep] using H
      · have hki : k = i := by omega
        subst hki
        have hd : k + 3 < st.destination.length := by omega
        have HP := pixelStep_dest_getElem gainR gainG gainB k st hd
        refine ⟨?_, ?_, ?_, ?_⟩
        · rw [processLoop_getElem_lt gainR gainG gainB fuel (k+4) k _ (by omega)]
          exact HP.1
        · rw [processLoop_getElem_lt gainR gainG gainB fuel (k+4) (k+1) _ (by omega)]
          exact HP.2.1
        · rw [processLoop_getElem_lt gainR gainG gainB fuel (k+4) (k+2) _ (by omega)]
          exact HP.2.2.1
        · rw [processLoop_getElem_lt gainR gainG gainB fuel (k+4) (k+3) _ (by omega)]
          exact HP.2.2.2
    · rw [if_neg hlt]
      exact absurd hklen (by omega)

theorem processImageBuffer_source (st : EngineState) (delta : CMYValues) :
    (processImageBuffer st delta).source = st.source :=
  processLoop_source _ _ _ _ _ _

theorem processImageBuffer_destLength (st : EngineState) (delta : CMYValues) :
    (processImageBuffer st delta).destination.length = st.destination.length :=
  processLoop_destLength _ _ _ _ _ _

theorem processImageBuffer_pixel (st : EngineState) (delta : CMYValues) (k : ℕ)
    (hdlen : st.destination.length = st.source.length)
    (hk : k % 4 = 0) (hklen : k + 3 < st.source.length) :
    (processImageBuffer st delta).destination[k]? =
        some (toUint8Clamped (clamp (newR (srcSample st k)
          (delta.c * STRENGTH) (delta.m * STRENGTH) (delta.y * STRENGTH)))) ∧
    (processImageBuffer st delta).destination[k+1]? =
        some (toUint8Clamped (clamp (newG (srcSample st (k+1))
          (delta.c * STRENGTH) (delta.m * STRENGTH) (delta.y * STRENGTH)))) ∧
    (processImageBuffer st delta).destination[k+2]? =
        some (toUint8Clamped (clamp (newB (srcSample st (k+2))
          (delta.c * STRENGTH) (delta.m * STRENGTH) (delta.y * STRENGTH)))) ∧
    (processImageBuffer st delta).destination[k+3]? =
        some (toUint8Clamped (srcSample st (k+3))) :=
  processLoop_pixel _ _ _ _ 0 k st (by omega) (by omega) (by omega) hk hdlen hklen

theorem getD_le_of_bounded (P : List ℕ) (hb : ∀ x ∈ P, x ≤ 255) (j : ℕ) :
    P.getD j 0 ≤ 255 := by
  by_cases hj : j < P.length
  · rw [List.getD_eq_getElem?_getD, List.getElem?_eq_getElem hj]
    exact hb _ (List.getElem_mem hj)
  · rw [List.getD_eq_getElem?_getD, List.getElem?_eq_none (by omega)]
    simp

theorem storeSample_id (v : ℕ) (hv : v ≤ 255) : toUint8Clamped (clamp (v : ℚ)) = v := by
  rw [clamp_of_mem _ (by positivity) (by exact_mod_cast hv)]
  exact toUint8Clamped_natCast v hv

/-! ## Claims -/

/-- C2: for every pair of settings, `calculateDelta` returns the channel-wise
difference `target - initial` with no clamping and no error conditions; any
rational inputs are valid, including pairs with `initial > target`, which give
a negative delta. -/
theorem C2_delta_linearity (base target : CMYValues) :
    (calculateDelta base target).c = target.c - base.c ∧
    (calculateDelta base target).m = target.m - base.m ∧
    (calculateDelta base target).y = target.y - base.y ∧
    (target.c < base.c → (calculateDelta base target).c < 0) := by
  refine ⟨rfl, rfl, rfl, fun h => ?_⟩
  show target.c - base.c < 0
  linarith

theorem C2_delta_linearity_witness :
    (calculateDelta ⟨5, 1, 2⟩ ⟨3, 1, 2⟩).c < 0 :=
  (C2_delta_linearity ⟨5, 1, 2⟩ ⟨3, 1, 2⟩).2.2.2 (by norm_num)

/-- C5: running the transform never changes the source buffer: the engine
reads `source` and writes only to the `destination` component of the state. -/
theorem C5_source_never_mutated (st : EngineState) (delta : CMYValues) :
    (processImageBuffer st delta).source = st.source :=
  processImageBuffer_source st delta

/-- C7: a pure magenta increase (`delta.m > 0`, `delta.c = delta.y = 0`)
strictly raises the pre-clamp green value and strictly lowers the pre-clamp
red and blue values, for any pixel with samples strictly inside `(0, 255)`. -/
theorem C7_crosstalk_sign (delta : CMYValues) (r g b : ℚ)
    (hm : 0 < delta.m) (hc : delta.c = 0) (hy : delta.y = 0)
    (hr0 : 0 < r) (hr1 : r < 255) (hg0 : 0 < g) (hg1 : g < 255)
    (hb0 : 0 < b) (hb1 : b < 255) :
    g < newG g (delta.c * STRENGTH) (delta.m * STRENGTH) (delta.y * STRENGTH) ∧
    newR r (delta.c * STRENGTH) (delta.m * STRENGTH) (delta.y * STRENGTH) < r ∧
    newB b (delta.c * STRENGTH) (delta.m * STRENGTH) (delta.y * STRENGTH) < b := by
  rw [hc, hy]
  have hS : (0:ℚ) < STRENGTH := by norm_num [STRENGTH]
  have h1 : 0 < delta.m * STRENGTH := mul_pos hm hS
  refine ⟨?_, ?_, ?_⟩ <;> simp only [newR, newG, newB, XTALK] <;> nlinarith [h1]

theorem C7_crosstalk_sign_witness :
    (128 : ℚ) < newG 128 ((0:ℚ) * STRENGTH) ((10:ℚ) * STRENGTH) ((0:ℚ) * STRENGTH) ∧
    newR 128 ((0:ℚ) * STRENGTH) ((10:ℚ) * STRENGTH) ((0:ℚ) * STRENGTH) < 128 ∧
    newB 128 ((0:ℚ) * STRENGTH) ((10:ℚ) * STRENGTH) ((0:ℚ) * STRENGTH) < 128 :=
  C7_crosstalk_sign ⟨0, 10, 0⟩ 128 128 128 (by norm_num) rfl rfl
    (by norm_num) (by norm_num) (by norm_num) (by norm_num) (by norm_num) (by norm_num)

/-- C9: `formatValue` returns its argument rounded to the nearest multiple of
0.1, with halves broken consistently toward `+∞` (JavaScript `Math.round`);
in particular `formatValue 12.34 = 12.3` and `formatValue (-0.05) = 0`. -/
theorem C9_format_rounding (v : ℚ) :
    (∃ k : ℤ, formatValue v = (k : ℚ) / 10) ∧
    (∀ k : ℤ, |formatValue v - v| ≤ |(k : ℚ) / 10 - v|) ∧
    (∀ m : ℤ, 10 * v = (m : ℚ) + 1/2 → formatValue v = ((m : ℚ) + 1) / 10) ∧
    formatValue (1234/100) = 123/10 ∧ formatValue (-(1/20)) = 0 := by
  have hj1 : ((jsRound (v * 10) : ℤ) : ℚ) ≤ v * 10 + 1/2 := Int.floor_le _
  have hj2 : v * 10 + 1/2 < ((jsRound (v * 10) : ℤ) : ℚ) + 1 := Int.lt_floor_add_one _
  have hjabs : |((jsRound (v * 10) : ℤ) : ℚ) - 10 * v| ≤ 1/2 := by
    rw [abs_le]; constructor <;> linarith
  refine ⟨⟨jsRound (v * 10), rfl⟩, ?_, ?_, ?_, ?_⟩
  · intro k
    have key : |((jsRound (v * 10) : ℤ) : ℚ) - 10 * v| ≤ |(k : ℚ) - 10 * v| := by
      by_cases hkj : k = jsRound (v * 10)
      · rw [hkj]
      · have hint : (1 : ℚ) ≤ |(k : ℚ) - ((jsRound (v * 10) : ℤ) : ℚ)| := by
          have h1 : 1 ≤ |k - jsRound (v * 10)| := Int.one_le_abs (by omega)
          calc (1:ℚ) = ((1:ℤ):ℚ) := by norm_num
          _ ≤ ((|k - jsRound (v * 10)| : ℤ) : ℚ) := by exact_mod_cast h1
          _ = |(k : ℚ) - ((jsRound (v * 10) : ℤ) : ℚ)| := by push_cast; ring_nf
        have htri := abs_sub_le (k : ℚ) (10 * v) ((jsRound (v * 10) : ℤ) : ℚ)
        have hcomm : |10 * v - ((jsRound (v * 10) : ℤ) : ℚ)|
            = |((jsRound (v * 10) : ℤ) : ℚ) - 10 * v| := abs_sub_comm _ _
        linarith
    have e1 : formatValue v - v = (((jsRound (v * 10) : ℤ) : ℚ) - 10 * v) / 10 := by
      unfold formatValue; ring
    have e2 : (k : ℚ) / 10 - v = ((k : ℚ) - 10 * v) / 10 := by ring
    rw [e1, e2, abs_div, abs_div]
    have h10 : |(10 : ℚ)| = 10 := by norm_num
    rw [h10]
    linarith
  · intro m hm
    have hcast : v * 10 + 1/2 = (((m + 1 : ℤ)) : ℚ) := by push_cast; linarith
    unfold formatValue jsRound
    rw [hcast, Int.floor_intCast]
    push_cast
    ring
  · norm_num [formatValue, jsRound]
  · norm_num [formatValue, jsRound]

theorem C9_format_rounding_witness : formatValue (1/4) = ((2 : ℤ) : ℚ) / 10 + 1 / 10 := by
  have h := (C9_format_rounding (1/4)).2.2.1 2 (by norm_num)
  rw [h]; ring

/-- C1 (counterexample): the claim says the destination sample equals the
clamped linear combination itself, but the stored sample is an 8-bit integer:
for source pixel (128,128,128,255) and delta {C:0, M:10, Y:0} the stored red
sample is 125 while the clamped combination is 125.3. -/
theorem C1_counterexample :
    ¬ (((processImageBuffer ⟨[128,128,128,255], [0,0,0,0]⟩ ⟨0, 10, 0⟩).destination.getD 0 0 : ℚ)
        = clamp (newR 128 ((0:ℚ) * 1.8) ((10:ℚ) * 1.8) ((0:ℚ) * 1.8))) := by
  have e : (processImageBuffer ⟨[128,128,128,255], [0,0,0,0]⟩ ⟨0, 10, 0⟩).destination
      = [125, 146, 125, 255] := by
    norm_num [processImageBuffer, processLoop, pixelStep, srcSample, toUint8Clamped,
      roundHalfEven, clamp, newR, newG, newB, STRENGTH, XTALK, List.getD]
    decide
  rw [e]
  norm_num [clamp, newR, XTALK, List.getD]

/-- C1 (amended): for every RGBA pixel of the source buffer, the transform
computes gains `delta.c * 1.8`, `delta.m * 1.8`, `delta.y * 1.8` and writes,
at the same offset as the source pixel, the source samples updated by the full
linear combination, clamped to [0, 255] after the combination (not per term)
and then converted to an 8-bit sample by the buffer's round-to-nearest
(ties-to-even) store. -/
theorem C1_transform_formula (st : EngineState) (delta : CMYValues) (i : ℕ)
    (hdlen : st.destination.length = st.source.length)
    (hi : i % 4 = 0) (hlen : i + 3 < st.source.length) :
    (processImageBuffer st delta).destination[i]? =
      some (toUint8Clamped (clamp (srcSample st i
        + delta.c * 1.8 - 0.15 * (delta.m * 1.8) - 0.15 * (delta.y * 1.8)))) ∧
    (processImageBuffer st delta).destination[i+1]? =
      some (toUint8Clamped (clamp (srcSample st (i+1)
        + delta.m * 1.8 - 0.15 * (delta.c * 1.8) - 0.15 * (delta.y * 1.8)))) ∧
    (processImageBuffer st delta).destination[i+2]? =
      some (toUint8Clamped (clamp (srcSample st (i+2)
        + delta.y * 1.8 - 0.15 * (delta.c * 1.8) - 0.15 * (delta.m * 1.8)))) := by
  have H := processImageBuffer_pixel st delta i hdlen hi hlen
  have eR : newR (srcSample st i) (delta.c * STRENGTH) (delta.m * STRENGTH) (delta.y * STRENGTH)
      = srcSample st i + delta.c * 1.8 - 0.15 * (delta.m * 1.8) - 0.15 * (delta.y * 1.8) := by
    unfold newR STRENGTH XTALK; ring
  have eG : newG (srcSample st (i+1)) (delta.c * STRENGTH) (delta.m * STRENGTH) (delta.y * STRENGTH)
      = srcSample st (i+1) + delta.m * 1.8 - 0.15 * (delta.c * 1.8) - 0.15 * (delta.y * 1.8) := by
    unfold newG STRENGTH XTALK; ring
  have eB : newB (srcSample st (i+2)) (delta.c * STRENGTH) (delta.m * STRENGTH) (delta.y * STRENGTH)
      = srcSample st (i+2) + delta.y * 1.8 - 0.15 * (delta.c * 1.8) - 0.15 * (delta.m * 1.8) := by
    unfold newB STRENGTH XTALK; ring
  exact ⟨by rw [H.1, eR], by rw [H.2.1, eG], by rw [H.2.2.1, eB]⟩

theorem C1_transform_formula_witness :
    (processImageBuffer ⟨[128,128,128,255], [0,0,0,0]⟩ ⟨0, 10, 0⟩).destination[0]? =
      some (toUint8Clamped (clamp (srcSample ⟨[128,128,128,255], [0,0,0,0]⟩ 0
        + (0:ℚ) * 1.8 - 0.15 * ((10:ℚ) * 1.8) - 0.15 * ((0:ℚ) * 1.8)))) :=
  (C1_transform_formula ⟨[128,128,128,255], [0,0,0,0]⟩ ⟨0, 10, 0⟩ 0 rfl rfl (by decide)).1

/-- C4: the transform carries the alpha sample through unchanged: for every
pixel offset `i` of a well-formed RGBA source, `destination[i+3] = source[i+3]`
regardless of the delta. -/
theorem C4_alpha_preserved (st : EngineState) (delta : CMYValues) (i : ℕ)
    (hdlen : st.destination.length = st.source.length)
    (hi : i % 4 = 0) (hlen : i + 3 < st.source.length)
    (hbound : ∀ x ∈ st.source, x ≤ 255) :
    (processImageBuffer st delta).destination[i+3]? = st.source[i+3]? := by
  have H := (processImageBuffer_pixel st delta i hdlen hi hlen).2.2.2
  rw [H]
  have hb := getD_le_of_bounded st.source hbound (i+3)
  show some (toUint8Clamped ((st.source.getD (i+3) 0 : ℕ) : ℚ)) = _
  rw [toUint8Clamped_natCast _ hb]
  rw [List.getD_eq_getElem?_getD, List.getElem?_eq_getElem (by omega)]
  simp

theorem C4_alpha_preserved_witness :
    (processImageBuffer ⟨[1,2,3,4], [0,0,0,0]⟩ ⟨7, -3, 250⟩).destination[3]? =
      ([1,2,3,4] : List ℕ)[3]? :=
  C4_alpha_preserved ⟨[1,2,3,4], [0,0,0,0]⟩ ⟨7, -3, 250⟩ 0 rfl rfl (by decide) (by decide)

/-- C6: transforming the single source pixel (128,128,128,255) with delta
{C:0, M:10, Y:0} gives gainGreen = 18, pre-store values newG = 146 and
newR = newB = 125.3, and the stored destination pixel (125,146,125,255). -/
theorem C6_concrete_scenario :
    (10 : ℚ) * STRENGTH = 18 ∧
    newG 128 ((0:ℚ) * STRENGTH) ((10:ℚ) * STRENGTH) ((0:ℚ) * STRENGTH) = 146 ∧
    newR 128 ((0:ℚ) * STRENGTH) ((10:ℚ) * STRENGTH) ((0:ℚ) * STRENGTH) = 125.3 ∧
    newB 128 ((0:ℚ) * STRENGTH) ((10:ℚ) * STRENGTH) ((0:ℚ) * STRENGTH) = 125.3 ∧
    toUint8Clamped (clamp 125.3) = 125 ∧
    (processImageBuffer ⟨[128,128,128,255], [0,0,0,0]⟩ ⟨0, 10, 0⟩).destination
      = [125, 146, 125, 255] := by
  refine ⟨by norm_num [STRENGTH], by norm_num [newG, STRENGTH, XTALK],
    by norm_num [newR, STRENGTH, XTALK], by norm_num [newB, STRENGTH, XTALK],
    by norm_num [toUint8Clamped, clamp, roundHalfEven]; decide, ?_⟩
  norm_num [processImageBuffer, processLoop, pixelStep, srcSample, toUint8Clamped,
    roundHalfEven, clamp, newR, newG, newB, STRENGTH, XTALK, List.getD]
  decide

/-- C8: with source pixel (250,250,250,255) and delta {C:10, M:0, Y:0}, the
red channel saturates (pre-clamp 268, stored 255), and applying the transform
twice with that delta differs from applying the doubled delta {C:20, M:0, Y:0}
once: repeated passes do not compose. -/
theorem C8_reapplication_not_composable :
    newR 250 ((10:ℚ) * STRENGTH) ((0:ℚ) * STRENGTH) ((0:ℚ) * STRENGTH) = 268 ∧
    (processImageBuffer ⟨[250,250,250,255], [0,0,0,0]⟩ ⟨10, 0, 0⟩).destination[0]? = some 255 ∧
    (processImageBuffer
        ⟨(processImageBuffer ⟨[250,250,250,255], [0,0,0,0]⟩ ⟨10, 0, 0⟩).destination,
          [0,0,0,0]⟩ ⟨10, 0, 0⟩).destination ≠
      (processImageBuffer ⟨[250,250,250,255], [0,0,0,0]⟩ ⟨20, 0, 0⟩).destination := by
  have e1 : (processImageBuffer ⟨[250,250,250,255], [0,0,0,0]⟩ ⟨10, 0, 0⟩).destination
      = [255, 247, 247, 255] := by
    norm_num [processImageBuffer, processLoop, pixelStep, srcSample, toUint8Clamped,
      roundHalfEven, clamp, newR, newG, newB, STRENGTH, XTALK, List.getD]
    decide
  have e2 : (processImageBuffer ⟨[255,247,247,255], [0,0,0,0]⟩ ⟨10, 0, 0⟩).destination
      = [255, 244, 244, 255] := by
    norm_num [processImageBuffer, processLoop, pixelStep, srcSample, toUint8Clamped,
      roundHalfEven, clamp, newR, newG, newB, STRENGTH, XTALK, List.getD]
    decide
  have e3 : (processImageBuffer ⟨[250,250,250,255], [0,0,0,0]⟩ ⟨20, 0, 0⟩).destination
      = [255, 245, 245, 255] := by
    norm_num [processImageBuffer, processLoop, pixelStep, srcSample, toUint8Clamped,
      roundHalfEven, clamp, newR, newG, newB, STRENGTH, XTALK, List.getD]
    decide
  refine ⟨by norm_num [newR, STRENGTH, XTALK], ?_, ?_⟩
  · rw [e1]
    rfl
  · rw [e1, e2, e3]
    decide

/-- C3: transforming any well-formed RGBA buffer P (8-bit samples, length a
multiple of 4) into an equal-length destination with the all-zero delta
yields a destination equal to P exactly, every sample including alpha. -/
theorem C3_zero_delta_identity (P dst : List ℕ)
    (h4 : P.length % 4 = 0) (hlen : dst.length = P.length)
    (hbound : ∀ x ∈ P, x ≤ 255) :
    (processImageBuffer ⟨P, dst⟩ ⟨0, 0, 0⟩).destination = P := by
  have hzR : ∀ x : ℚ, newR x ((0:ℚ) * STRENGTH) ((0:ℚ) * STRENGTH) ((0:ℚ) * STRENGTH) = x := by
    intro x; unfold newR; ring
  have hzG : ∀ x : ℚ, newG x ((0:ℚ) * STRENGTH) ((0:ℚ) * STRENGTH) ((0:ℚ) * STRENGTH) = x := by
    intro x; unfold newG; ring
  have hzB : ∀ x : ℚ, newB x ((0:ℚ) * STRENGTH) ((0:ℚ) * STRENGTH) ((0:ℚ) * STRENGTH) = x := by
    intro x; unfold newB; ring
  have hss : ∀ j, srcSample ⟨P, dst⟩ j = ((P.getD j 0 : ℕ) : ℚ) := fun _ => rfl
  have hv : ∀ j, toUint8Clamped (clamp ((P.getD j 0 : ℕ) : ℚ)) = P.getD j 0 := fun j =>
    storeSample_id _ (getD_le_of_bounded P hbound j)
  have hva : ∀ j, toUint8Clamped ((P.getD j 0 : ℕ) : ℚ) = P.getD j 0 := fun j =>
    toUint8Clamped_natCast _ (getD_le_of_bounded P hbound j)
  apply List.ext_getElem?
  intro n
  by_cases hn : n < P.length
  · have hPn : P[n]? = some (P.getD n 0) := by
      rw [List.getD_eq_getElem?_getD, List.getElem?_eq_getElem hn]
      rfl
    obtain ⟨k, hk4, hkc⟩ : ∃ k, k % 4 = 0 ∧ (n = k ∨ n = k+1 ∨ n = k+2 ∨ n = k+3) :=
      ⟨4*(n/4), by omega, by omega⟩
    have hk3 : k + 3 < P.length := by omega
    have H := processImageBuffer_pixel ⟨P, dst⟩ ⟨0, 0, 0⟩ k hlen hk4 hk3
    dsimp only at H
    simp only [hss, hzR, hzG, hzB, hv, hva] at H
    rcases hkc with h | h | h | h <;> subst h <;> rw [hPn]
    · exact H.1
    · exact H.2.1
    · exact H.2.2.1
    · exact H.2.2.2
  · have hlenout : (processImageBuffer ⟨P, dst⟩ ⟨0, 0, 0⟩).destination.length = P.length := by
      rw [processImageBuffer_destLength]
      exact hlen
    rw [List.getElem?_eq_none (by omega), List.getElem?_eq_none (by omega)]

theorem C3_zero_delta_identity_witness :
    (processImageBuffer ⟨[7, 8, 9, 10], [1, 2, 3, 4]⟩ ⟨0, 0, 0⟩).destination = [7, 8, 9, 10] :=
  C3_zero_delta_identity [7, 8, 9, 10] [1, 2, 3, 4] rfl rfl (by decide)

/-- C10: after a transform pass over a well-formed RGBA source into an
equal-length destination, every destination sample is an integer at most 255,
and each stored color sample lies within 1/2 of the clamped linear
combination: the fraction-to-integer rounding happens at the buffer write. -/
theorem C10_samples_well_formed (st : EngineState) (delta : CMYValues)
    (hdlen : st.destination.length = st.source.length)
    (h4 : st.source.length % 4 = 0) :
    (∀ x ∈ (processImageBuffer st delta).destination, x ≤ 255) ∧
    (∀ i, i % 4 = 0 → i + 3 < st.source.length →
      |((processImageBuffer st delta).destination.getD i 0 : ℚ)
          - clamp (newR (srcSample st i) (delta.c * STRENGTH) (delta.m * STRENGTH)
              (delta.y * STRENGTH))| ≤ 1/2 ∧
      |((processImageBuffer st delta).destination.getD (i+1) 0 : ℚ)
          - clamp (newG (srcSample st (i+1)) (delta.c * STRENGTH) (delta.m * STRENGTH)
              (delta.y * STRENGTH))| ≤ 1/2 ∧
      |((processImageBuffer st delta).destination.getD (i+2) 0 : ℚ)
          - clamp (newB (srcSample st (i+2)) (delta.c * STRENGTH) (delta.m * STRENGTH)
              (delta.y * STRENGTH))| ≤ 1/2) := by
  constructor
  · intro x hx
    rw [List.mem_iff_getElem?] at hx
    obtain ⟨n, hn⟩ := hx
    have hnlen : n < (processImageBuffer st delta).destination.length := by
      obtain ⟨hlt, -⟩ := List.getElem?_eq_some_iff.mp hn
      exact hlt
    rw [processImageBuffer_destLength] at hnlen
    obtain ⟨k, hk4, hkc⟩ : ∃ k, k % 4 = 0 ∧ (n = k ∨ n = k+1 ∨ n = k+2 ∨ n = k+3) :=
      ⟨4*(n/4), by omega, by omega⟩
    have hk3 : k + 3 < st.source.length := by omega
    have H := processImageBuffer_pixel st delta k hdlen hk4 hk3
    rcases hkc with h | h | h | h <;> subst h
    · rw [H.1] at hn
      exact Option.some.inj hn ▸ toUint8Clamped_le _
    · rw [H.2.1] at hn
      exact Option.some.inj hn ▸ toUint8Clamped_le _
    · rw [H.2.2.1] at hn
      exact Option.some.inj hn ▸ toUint8Clamped_le _
    · rw [H.2.2.2] at hn
      exact Option.some.inj hn ▸ toUint8Clamped_le _
  · intro i hi hlen3
    have H := processImageBuffer_pixel st delta i hdlen hi hlen3
    refine ⟨?_, ?_, ?_⟩
    · rw [List.getD_eq_getElem?_getD, H.1]
      simp only [Option.getD_some]
      exact abs_toUint8Clamped_sub_le _ (clamp_mem _).1 (clamp_mem _).2
    · rw [List.getD_eq_getElem?_getD, H.2.1]
      simp only [Option.getD_some]
      exact abs_toUint8Clamped_sub_le _ (clamp_mem _).1 (clamp_mem _).2
    · rw [List.getD_eq_getElem?_getD, H.2.2.1]
      simp only [Option.getD_some]
      exact abs_toUint8Clamped_sub_le _ (clamp_mem _).1 (clamp_mem _).2

theorem C10_samples_well_formed_witness :
    |((processImageBuffer ⟨[128,128,128,255], [0,0,0,0]⟩ ⟨0, 10, 0⟩).destination.getD 0 0 : ℚ)
        - clamp (newR (srcSample ⟨[128,128,128,255], [0,0,0,0]⟩ 0)
            ((0:ℚ) * STRENGTH) ((10:ℚ) * STRENGTH) ((0:ℚ) * STRENGTH))| ≤ 1/2 :=
  ((C10_samples_well_formed ⟨[128,128,128,255], [0,0,0,0]⟩ ⟨0, 10, 0⟩ rfl rfl).2
    0 rfl (by decide)).1
